import Mathlib

/-!
Shallow embedding of the catalog normalization and cross-snapshot
reconciliation pipeline of `download_lorcanajson.py`, together with proofs
about the claims of the specification.  Python dictionaries are modelled as
association lists with last-assignment-wins update, Python strings as Lean
strings, Python integers as `Int`, and absent values as `Option`/empty
strings following Python truthiness.
-/

namespace Inkwell

/-! ## Python string primitives -/

/-- ASCII lower-casing of a single character, as `str.lower` does on the
catalog's character range. -/
def lowChar (c : Char) : Char :=
  if 65 ≤ c.toNat ∧ c.toNat ≤ 90 then Char.ofNat (c.toNat + 32) else c

/-- Model of Python `s.lower()` on the ASCII range used by the catalog. -/
def pyLower (s : String) : String := ⟨s.data.map lowChar⟩

/-- Whether the first list is an initial segment of the second. -/
def listStartsWith : List Char → List Char → Bool
  | [], _ => true
  | _ :: _, [] => false
  | a :: as, b :: bs => decide (a = b) && listStartsWith as bs

/-- Whether `needle` occurs contiguously inside the second list. -/
def listHasSub (needle : List Char) : List Char → Bool
  | [] => needle.isEmpty
  | a :: rest => listStartsWith needle (a :: rest) || listHasSub needle rest

/-- Model of Python `needle in haystack` for strings. -/
def pyInStr (needle haystack : String) : Bool :=
  listHasSub needle.data haystack.data

/-- Python truthiness of a string: non-empty strings are truthy. -/
def pyTruthy (s : String) : Bool := s != ""

/-- Python truthiness of an optional string (`None` and `""` are falsy). -/
def pyTruthyOpt : Option String → Bool
  | none => false
  | some s => s != ""

/-- Python truthiness of an optional integer (`None` and `0` are falsy). -/
def pyTruthyInt : Option Int → Bool
  | none => false
  | some n => n != 0

/-- Decimal digit test on code points. -/
def isDigitChar (c : Char) : Bool := decide (48 ≤ c.toNat ∧ c.toNat ≤ 57)

/-- Numeric value of a list of decimal digits. -/
def digitsToNat (ds : List Char) : Nat :=
  ds.foldl (fun a c => a * 10 + (c.toNat - 48)) 0

/-- Model of Python `int(s)` on decimal literals: an optional sign followed
by one or more digits parses, anything else raises (returns `none`). -/
def pyParseInt (s : String) : Option Int :=
  match s.data with
  | [] => none
  | '-' :: ds =>
    if ds.isEmpty then none
    else if ds.all isDigitChar then some (-(digitsToNat ds : Int)) else none
  | '+' :: ds =>
    if ds.isEmpty then none
    else if ds.all isDigitChar then some (digitsToNat ds : Int) else none
  | ds => if ds.all isDigitChar then some (digitsToNat ds : Int) else none

/-- Left-pad a string with zeros to width `w`. -/
def padZero (w : Nat) (s : String) : String :=
  ⟨List.replicate (w - s.length) '0'⟩ ++ s

/-- Model of the Python format `f-string` directive `03d`: minimum width 3,
zero padded, the sign counting toward the width. -/
def fmt03 (n : Int) : String :=
  if n < 0 then "-" ++ padZero 2 (toString n.natAbs) else padZero 3 (toString n.natAbs)

/-! ## Python dictionaries -/

/-- A Python `dict` with string keys: an insertion-ordered association list;
assignment to an existing key overwrites in place. -/
abbrev PyDict (α : Type) : Type := List (String × α)

/-- `d.get(k)` / `d[k]` lookup. -/
def dget {α : Type} (d : PyDict α) (k : String) : Option α :=
  (List.find? (fun p => p.1 == k) d).map (fun p => p.2)

/-- `k in d` membership test. -/
def dcontains {α : Type} (d : PyDict α) (k : String) : Bool := (dget d k).isSome

/-- `d.get(k, dflt)` lookup with default. -/
def dgetD {α : Type} (d : PyDict α) (k : String) (dflt : α) : α := (dget d k).getD dflt

/-- `d[k] = v` assignment. -/
def dset {α : Type} (d : PyDict α) (k : String) (v : α) : PyDict α :=
  if dcontains d k then d.map (fun p => if p.1 == k then (k, v) else p)
  else d ++ [(k, v)]

/-! ## Configuration tables of the script -/

/-- Set code mapping (`SET_CODE_MAP`). -/
def SET_CODE_MAP : PyDict String :=
  [("The First Chapter", "TFC"), ("Rise of the Floodborn", "ROF"),
   ("Into the Inklands", "ITI"), ("Ursula's Return", "TUR"),
   ("Shimmering Skies", "SSK"), ("Azurite Sea", "AZS"), ("Fabled", "FAB"),
   ("Archazia's Island", "ARI"), ("Reign of Jafar", "ROJ"),
   ("Whispers in the Well", "WIW"), ("Promo Set 1", "P1"), ("Promo Set 2", "P2"),
   ("Challenge Promo", "CP"), ("D23 Collection", "D23")]

/-- Variant mapping (`VARIANT_MAP`). -/
def VARIANT_MAP : PyDict String :=
  [("normal", "Normal"), ("foil", "Foil"), ("enchanted", "Enchanted"),
   ("promo", "Promo"), ("borderless", "Borderless"), ("epic", "Epic"),
   ("iconic", "Iconic")]

/-! ## Data model -/

/-- The nested `set` object of an upstream raw record; a missing object or
missing fields surface as empty strings through `.get(..., "")`. -/
structure SetInfo where
  name : String := ""
  code : String := ""
  deriving DecidableEq, Repr

/-- The nested `image_uris` object; an absent URL is the empty string. -/
structure ImageUris where
  digitalLarge : String := ""
  digitalNormal : String := ""
  digitalSmall : String := ""
  large : String := ""
  normal : String := ""
  small : String := ""
  deriving DecidableEq, Repr

/-- A raw upstream record, with the fields `convert_card_to_app_format`
consumes; absent text fields surface as empty strings. -/
structure RawCard where
  setInfo : SetInfo := {}
  rarity : String := ""
  collector_number : String := ""
  name : String := ""
  version : String := ""
  text : String := ""
  flavor_text : String := ""
  image_uris : ImageUris := {}
  cost : Option Int := none
  inkwell : Bool := false
  strength : Option Int := none
  willpower : Option Int := none
  lore : Option Int := none
  ink : String := ""
  type : List String := []
  deriving DecidableEq, Repr

/-- A canonical app-format card, the dictionary `convert_card_to_app_format`
returns. -/
structure Card where
  id : String := ""
  name : String := ""
  cost : Option Int := none
  type : String := ""
  rarity : String := ""
  setName : String := ""
  cardText : String := ""
  imageUrl : String := ""
  variant : String := ""
  cardNumber : Option Int := none
  uniqueId : Option String := none
  inkwell : Bool := false
  strength : Option Int := none
  willpower : Option Int := none
  lore : Option Int := none
  franchise : String := ""
  inkColor : String := ""
  deriving DecidableEq, Repr

/-! ## Normalizer and Identity Synthesizer (`convert_card_to_app_format`) -/

/-- `set_name = set_info.get("name", "")`. -/
def setNameOf (card : RawCard) : String := card.setInfo.name

/-- `set_code = SET_CODE_MAP.get(set_name, set_code_raw)`. -/
def setCodeOf (card : RawCard) : String :=
  dgetD SET_CODE_MAP (setNameOf card) card.setInfo.code

/-- `rarity_raw = card.get("rarity", "").lower()`. -/
def rarityRawOf (card : RawCard) : String := pyLower card.rarity

/-- The raw variant keyword chosen by the rarity/set inspection cascade. -/
def variantRawOf (card : RawCard) : String :=
  if pyInStr "enchanted" (rarityRawOf card) then "enchanted"
  else if pyInStr "epic" (rarityRawOf card) then "epic"
  else if pyInStr "iconic" (rarityRawOf card) then "iconic"
  else if pyInStr "promo" (pyLower (setNameOf card)) || pyInStr "promo" (rarityRawOf card)
    then "promo"
  else "normal"

/-- `variant = VARIANT_MAP.get(variant_raw, "Normal")`. -/
def variantOf (card : RawCard) : String := dgetD VARIANT_MAP (variantRawOf card) "Normal"

/-- `card_num`: parse of the collector-number text, `None` on failure or on
an empty (falsy) input. -/
def parsedNumOf (card : RawCard) : Option Int :=
  if pyTruthy card.collector_number then pyParseInt card.collector_number else none

/-- `unique_id`: built only when `card_num` and `set_code` are both truthy. -/
def uniqueIdOf (card : RawCard) : Option String :=
  if pyTruthyInt (parsedNumOf card) && pyTruthy (setCodeOf card) then
    some (setCodeOf card ++ "-" ++ fmt03 ((parsedNumOf card).getD 0))
  else none

/-- `full_name`: the name, with the version appended after a dash when the
version is truthy. -/
def fullNameOf (card : RawCard) : String :=
  if pyTruthy card.version then card.name ++ " - " ++ card.version else card.name

/-- `name_part = full_name.replace(" ", "_").replace("-", "_").replace("'", "")`. -/
def namePartOf (card : RawCard) : String :=
  ⟨(fullNameOf card).data.filterMap (fun c =>
    if c = ' ' then some '_'
    else if c = '-' then some '_'
    else if c = '\'' then none
    else some c)⟩

/-- `s.replace(" ", "_")` as applied to the set name. -/
def pyReplaceSpace (s : String) : String :=
  ⟨s.data.map (fun c => if c = ' ' then '_' else c)⟩

/-- `card_num or 0`. -/
def numOrZero (card : RawCard) : Int := (parsedNumOf card).getD 0

/-- `card_id`: set token, number-or-zero and name token joined by
underscores, with a variant suffix when the variant is not Normal. -/
def cardIdOf (card : RawCard) : String :=
  let base := pyReplaceSpace (setNameOf card) ++ "_" ++ toString (numOrZero card)
      ++ "_" ++ namePartOf card
  if variantOf card ≠ "Normal" then base ++ "_" ++ variantOf card else base

/-- `card_text`: body text with flavor text appended after a blank line when
both are truthy. -/
def cardTextOf (card : RawCard) : String :=
  if pyTruthy card.flavor_text then
    if pyTruthy card.text then card.text ++ "\n\n" ++ card.flavor_text
    else card.flavor_text
  else card.text

/-- Python `a or b` on strings. -/
def pyOrStr (a b : String) : String := if pyTruthy a then a else b

/-- The image resolution cascade over the nested URL groups. -/
def imageUrlRawOf (card : RawCard) : String :=
  pyOrStr
    (pyOrStr card.image_uris.digitalLarge
      (pyOrStr card.image_uris.digitalNormal card.image_uris.digitalSmall))
    (pyOrStr card.image_uris.large (pyOrStr card.image_uris.normal card.image_uris.small))

/-- The resolved image URL, with the `local://` placeholder fallback and the
final `image_url or ""`. -/
def imageUrlOf (card : RawCard) : String :=
  if pyTruthy (imageUrlRawOf card) then imageUrlRawOf card
  else
    match uniqueIdOf card with
    | some uid =>
      "local://" ++ uid ++
        (if variantOf card = "Normal" then "" else "-" ++ variantRawOf card)
    | none => ""

/-- `" - ".join(card_type)` for the type list. -/
def joinTypes (l : List String) : String := String.intercalate " - " l

/-- One character of Python `str.title()`: letters after a letter are
lowered, letters after a non-letter are raised. -/
def isAlphaChar (c : Char) : Bool :=
  decide ((65 ≤ c.toNat ∧ c.toNat ≤ 90) ∨ (97 ≤ c.toNat ∧ c.toNat ≤ 122))

/-- ASCII upper-casing of a single character. -/
def upChar (c : Char) : Char :=
  if 97 ≤ c.toNat ∧ c.toNat ≤ 122 then Char.ofNat (c.toNat - 32) else c

/-- Title-casing walk carrying whether the previous character was a letter. -/
def titleAux : Bool → List Char → List Char
  | _, [] => []
  | prevAlpha, c :: rest =>
    (if isAlphaChar c then (if prevAlpha then lowChar c else upChar c) else c)
      :: titleAux (isAlphaChar c) rest

/-- Model of Python `s.title()` on the ASCII range. -/
def pyTitle (s : String) : String := ⟨titleAux false s.data⟩

/-- `rarity.replace("_", " ").title()`. -/
def rarityOf (card : RawCard) : String :=
  pyTitle ⟨card.rarity.data.map (fun c => if c = '_' then ' ' else c)⟩

/-- The full conversion of one raw record to the app format. -/
def convert_card_to_app_format (card : RawCard) : Card :=
  { id := cardIdOf card
    name := fullNameOf card
    cost := card.cost
    type := joinTypes card.type
    rarity := rarityOf card
    setName := setNameOf card
    cardText := cardTextOf card
    imageUrl := imageUrlOf card
    variant := variantOf card
    cardNumber := parsedNumOf card
    uniqueId := uniqueIdOf card
    inkwell := card.inkwell
    strength := card.strength
    willpower := card.willpower
    lore := card.lore
    franchise := ""
    inkColor := card.ink }

/-! ## Old-snapshot index (`load_existing_cards`) -/

/-- The lookup key `f"uid:{unique_id}"`. -/
def keyUid (u : String) : String := "uid:" ++ u

/-- The lookup key `f"name:{card_name}|set:{set_name}"`. -/
def keyNameSet (n s : String) : String := "name:" ++ n ++ "|set:" ++ s

/-- The lookup key `f"num:{card_num}|set:{set_name}"`. -/
def keyNumSet (n : Int) (s : String) : String := "num:" ++ toString n ++ "|set:" ++ s

/-- One iteration of the `load_existing_cards` loop over a previously
written app-format card: skip nameless cards, then store the card under up
to three lookup keys. -/
def loadCardStep (existing : PyDict Card) (card : Card) : PyDict Card :=
  let card_name := card.name
  let set_name := card.setName
  let unique_id := card.uniqueId.getD ""
  let card_num : Option Int :=
    if pyTruthyInt card.cardNumber then card.cardNumber else none
  if card_name = "" then existing
  else
    let e1 := if unique_id ≠ "" then dset existing (keyUid unique_id) card else existing
    let e2 :=
      if card_name ≠ "" ∧ set_name ≠ "" then dset e1 (keyNameSet card_name set_name) card
      else e1
    if pyTruthyInt card_num ∧ set_name ≠ "" then
      dset e2 (keyNumSet (card_num.getD 0) set_name) card
    else e2

/-- `load_existing_cards`, applied to the flattened card lists of the
previously written per-set catalogs. -/
def load_existing_cards (oldCards : List Card) : PyDict Card :=
  oldCards.foldl loadCardStep []

/-! ## Reconciler (`build_migration_map`) -/

/-- One value of the `migration_map` dictionary. -/
structure MigrationEntry where
  old_id : String
  new_id : String
  new_unique_id : Option String
  name : String
  set : String
  variant : String
  match_method : String
  deriving DecidableEq, Repr

/-- Strategy 1: match by uniqueId, attempted only when the new card's
`uniqueId` is truthy. -/
def strategy1 (old_cards : PyDict Card) (c : Card) : Option Card :=
  if pyTruthyOpt c.uniqueId then dget old_cards (keyUid (c.uniqueId.getD "")) else none

/-- Strategy 2: match by name and set. -/
def strategy2 (old_cards : PyDict Card) (c : Card) : Option Card :=
  dget old_cards (keyNameSet c.name c.setName)

/-- Strategy 3: match by card number and set, attempted only when the new
card's number is truthy. -/
def strategy3 (old_cards : PyDict Card) (c : Card) : Option Card :=
  if pyTruthyInt c.cardNumber then
    dget old_cards (keyNumSet (c.cardNumber.getD 0) c.setName)
  else none

/-- The cascade of the three match strategies, stopping at the first card
found. -/
def findOldCard (old_cards : PyDict Card) (c : Card) : Option Card :=
  match strategy1 old_cards c with
  | some o => some o
  | none =>
    match strategy2 old_cards c with
    | some o => some o
    | none => strategy3 old_cards c

/-- The recorded `match_method` of an emitted entry. -/
def matchMethodOf (old_cards : PyDict Card) (c : Card) : String :=
  if pyTruthyOpt c.uniqueId ∧ dcontains old_cards (keyUid (c.uniqueId.getD "")) then
    "uniqueId"
  else "name+set"

/-- One iteration of the `build_migration_map` loop: emit an entry keyed by
the matched old card's id when a match with a truthy id is found. -/
def migrationStep (old_cards : PyDict Card) (m : PyDict MigrationEntry) (c : Card) :
    PyDict MigrationEntry :=
  match findOldCard old_cards c with
  | some oldCard =>
    if oldCard.id ≠ "" then
      dset m oldCard.id
        { old_id := oldCard.id
          new_id := c.id
          new_unique_id := c.uniqueId
          name := c.name
          set := c.setName
          variant := c.variant
          match_method := matchMethodOf old_cards c }
    else m
  | none => m

/-- `build_migration_map`. -/
def build_migration_map (old_cards : PyDict Card) (new_cards : List Card) :
    PyDict MigrationEntry :=
  new_cards.foldl (migrationStep old_cards) []

/-! ## Catalog Writer (`download_and_convert` steps 3 to 6) -/

/-- Append a card to its set's group, creating the group when absent. -/
def addToGroups (groups : PyDict (List Card)) (s : String) (c : Card) :
    PyDict (List Card) :=
  match dget groups s with
  | some l => dset groups s (l ++ [c])
  | none => dset groups s [c]

/-- One iteration of step 3 of `download_and_convert`: convert the raw
record; skip it (surfacing it in the second component) when it has no set
name, otherwise append it to its set's group. -/
def groupStep (acc : PyDict (List Card) × List Card) (raw : RawCard) :
    PyDict (List Card) × List Card :=
  let app := convert_card_to_app_format raw
  if app.setName = "" then (acc.1, acc.2 ++ [app])
  else (addToGroups acc.1 app.setName app, acc.2)

/-- Step 3 of `download_and_convert`: convert every raw record and group the
results by set name.  Returns the groups and the skipped converted records. -/
def groupCards (raws : List RawCard) : PyDict (List Card) × List Card :=
  raws.foldl groupStep ([], [])

/-- The deduplication loop with its `seen_ids` accumulator. -/
def dedupAux (seen : List String) : List Card → List Card
  | [] => []
  | c :: rest =>
    if seen.contains c.id then dedupAux seen rest
    else c :: dedupAux (c.id :: seen) rest

/-- Step 4's per-set deduplication by card id, first occurrence kept. -/
def dedupCards (cards : List Card) : List Card := dedupAux [] cards

/-- Insertion into a sorted list that keeps the inserted element after every
strictly smaller element and before equal ones, as a stable sort does. -/
def insertS {α : Type} (le : α → α → Bool) (a : α) : List α → List α
  | [] => [a]
  | b :: bs => if le b a && !le a b then b :: insertS le a bs else a :: b :: bs

/-- A stable comparison sort; Python's `list.sort` is stable, and a stable
sort's output is determined by the comparison alone. -/
def stableSort {α : Type} (le : α → α → Bool) : List α → List α
  | [] => []
  | x :: xs => insertS le x (stableSort le xs)

/-- Lexicographic comparison of character lists by code point, modelling
Python string comparison. -/
def listLeChars : List Char → List Char → Bool
  | [], _ => true
  | _ :: _, [] => false
  | a :: as, b :: bs =>
    decide (a.toNat < b.toNat) || (decide (a.toNat = b.toNat) && listLeChars as bs)

/-- The sort key comparison of step 4:
`key=lambda c: (c.get("cardNumber") or 0, c.get("variant", ""))`. -/
def sortKeyLe (a b : Card) : Bool :=
  decide (a.cardNumber.getD 0 < b.cardNumber.getD 0) ||
    (decide (a.cardNumber.getD 0 = b.cardNumber.getD 0) &&
      listLeChars a.variant.data b.variant.data)

/-- `unique_cards.sort(key=...)`. -/
def sortCards (cards : List Card) : List Card := stableSort sortKeyLe cards

/-- The card list written to the per-set catalog for set `s`. -/
def catalogCards (raws : List RawCard) (s : String) : List Card :=
  sortCards (dedupCards ((dget (groupCards raws).1 s).getD []))

/-- `sorted(cards_by_set.items())`: the groups ordered by set name. -/
def sortGroupsByName (groups : PyDict (List Card)) : PyDict (List Card) :=
  stableSort (fun p q => listLeChars p.1.data q.1.data) groups

/-- `all_new_cards`: the deduplicated, sorted cards of every set, in set
name order. -/
def allNewCards (raws : List RawCard) : List Card :=
  (sortGroupsByName (groupCards raws).1).foldl
    (fun acc p => acc ++ sortCards (dedupCards p.2)) []

/-- The variant breakdown dictionary of the summary. -/
def variantCountsOf (cards : List Card) : PyDict Nat :=
  cards.foldl (fun vc c => dset vc c.variant ((dget vc c.variant).getD 0 + 1)) []

/-- `not c.get("imageUrl") or c["imageUrl"].startswith("local://")`. -/
def isMissingImage (c : Card) : Bool :=
  !pyTruthy c.imageUrl || listStartsWith "local://".data c.imageUrl.data

/-- The numbers the step 6 run summary reports. -/
structure RunSummary where
  totalCards : Nat
  setsCreated : Nat
  migrationMappings : Nat
  variantCounts : PyDict Nat
  missingImages : Nat
  deriving DecidableEq, Repr

/-- The run summary computed by `download_and_convert` for a given old
snapshot and raw input. -/
def runSummary (oldCards : List Card) (raws : List RawCard) : RunSummary :=
  let existing := load_existing_cards oldCards
  let newCards := allNewCards raws
  { totalCards := newCards.length
    setsCreated := (groupCards raws).1.length
    migrationMappings := (build_migration_map existing newCards).length
    variantCounts := variantCountsOf newCards
    missingImages := (newCards.filter isMissingImage).length }

/-! ## Specification-side definitions, for comparison with the code -/

/-- Modelled from the spec: keep, for each entity id, exactly the first card
carrying it, in input order. -/
def dedupFirstSpec : List Card → List Card
  | [] => []
  | c :: rest => c :: dedupFirstSpec (rest.filter (fun d => d.id != c.id))
termination_by l => l.length
decreasing_by
  simp only [List.length_cons]
  exact Nat.lt_succ_of_le (List.length_filter_le _ _)

/-- Modelled from the spec: order by collector number ascending with an
absent number treated as infinite, ties broken by variant name. -/
def specSortLe (a b : Card) : Bool :=
  match a.cardNumber, b.cardNumber with
  | none, none => listLeChars a.variant.data b.variant.data
  | none, some _ => false
  | some _, none => true
  | some x, some y =>
    decide (x < y) || (decide (x = y) && listLeChars a.variant.data b.variant.data)

/-- Every number the run summary reports. -/
def summaryNumbers (s : RunSummary) : List Nat :=
  [s.totalCards, s.setsCreated, s.migrationMappings] ++
    s.variantCounts.map (fun p => p.2) ++ [s.missingImages]

/-- How many records deduplication drops, per the spec's counting demand:
group size minus deduplicated group size, summed over the groups. -/
def droppedCount (raws : List RawCard) : Nat :=
  ((groupCards raws).1.map (fun p => p.2.length - (dedupCards p.2).length)).sum

/-- The entry the reconciler emits when a card matches itself through its
uid key. -/
def selfEntry (c : Card) : MigrationEntry :=
  { old_id := c.id
    new_id := c.id
    new_unique_id := c.uniqueId
    name := c.name
    set := c.setName
    variant := c.variant
    match_method := "uniqueId" }

/-- The total length of the grouped card lists. -/
def sumLens (gs : PyDict (List Card)) : Nat := (gs.map (fun p => p.2.length)).sum

/-! ## Concrete instances used by the concrete theorems below -/

/-- A self-contained catalog card carrying a uniqueId. -/
def cardW1 : Card :=
  { id := "The_First_Chapter_1_Elsa", name := "Elsa", setName := "The First Chapter",
    variant := "Normal", cardNumber := some 1, uniqueId := some "TFC-001" }

/-- A catalog card with no uniqueId (absent collector number). -/
def cardNoUid : Card :=
  { id := "SetA_0_Zed", name := "Zed", setName := "SetA", variant := "Normal",
    cardNumber := none, uniqueId := none }

/-- A raw record whose name contains a space. -/
def rawSpace : RawCard :=
  { setInfo := { name := "SetX", code := "SX" }, name := "A B", collector_number := "1" }

/-- A raw record whose name contains a hyphen instead. -/
def rawHyphen : RawCard :=
  { setInfo := { name := "SetX", code := "SX" }, name := "A-B", collector_number := "1" }

/-- A raw record; `rawElsa2` differs from it only in flavor text. -/
def rawElsa1 : RawCard :=
  { setInfo := { name := "The First Chapter", code := "1" }, name := "Elsa",
    collector_number := "7" }

/-- `rawElsa1` with flavor text added: the identity tuple is unchanged. -/
def rawElsa2 : RawCard :=
  { setInfo := { name := "The First Chapter", code := "1" }, name := "Elsa",
    collector_number := "7", flavor_text := "Let it go." }

/-- An old-snapshot card reachable through its uid key. -/
def oldCardA : Card := { id := "old1", name := "Elsa", setName := "SetA" }

/-- A different old-snapshot card reachable through the name and set key. -/
def oldCardB : Card := { id := "old2", name := "Elsa", setName := "SetA" }

/-- An old snapshot in which `newCardU` is matchable both by uid and by
name and set, against two different old cards. -/
def oldIndexC3 : PyDict Card :=
  [(keyUid "TFC-001", oldCardA), (keyNameSet "Elsa" "SetA", oldCardB)]

/-- A new card carrying a uniqueId that hits `oldCardA`. -/
def newCardU : Card :=
  { id := "new1", name := "Elsa", setName := "SetA", uniqueId := some "TFC-001" }

/-- An old-snapshot card reachable only through the number and set key. -/
def oldCardNum : Card :=
  { id := "oldN", name := "Other", setName := "SetA", cardNumber := some 5 }

/-- An old snapshot holding only a number and set key. -/
def oldIndexC4 : PyDict Card := [(keyNumSet 5 "SetA", oldCardNum)]

/-- A new card that can only match through the number and set strategy. -/
def newCardNum : Card :=
  { id := "new", name := "N", setName := "SetA", cardNumber := some 5,
    uniqueId := some "ZZ-005" }

/-- A raw record whose collector number parses to zero. -/
def rawZeroNum : RawCard :=
  { setInfo := { name := "The First Chapter", code := "1" }, name := "Elsa",
    collector_number := "0" }

/-- A raw record with a non-numeric collector number. -/
def rawNonNumeric : RawCard :=
  { setInfo := { name := "The First Chapter", code := "1" }, name := "Elsa",
    collector_number := "12a" }

/-- A raw record with a set but no name. -/
def rawNoName : RawCard :=
  { setInfo := { name := "Rise of the Floodborn", code := "2" }, collector_number := "7" }

/-- A raw record with a name but no set object. -/
def rawNoSet : RawCard := { name := "Ghost", collector_number := "3" }

/-- A card without a collector number. -/
def cardAbsentNum : Card := { id := "a", variant := "Normal", cardNumber := none }

/-- A card with collector number five. -/
def cardFive : Card := { id := "b", variant := "Normal", cardNumber := some 5 }

/-- A raw record used three times over to exercise deduplication. -/
def rawDup : RawCard :=
  { setInfo := { name := "The First Chapter", code := "1" }, name := "Elsa",
    collector_number := "1", image_uris := { digitalLarge := "http://img" } }

/-! ## Dictionary lemmas -/

theorem dget_nil {α : Type} (k : String) : dget ([] : PyDict α) k = none := rfl

theorem dget_cons {α : Type} (a : String) (b : α) (t : PyDict α) (k : String) :
    dget ((a, b) :: t) k = if a = k then some b else dget t k := by
  by_cases h : a = k
  · simp [dget, List.find?, h]
  · have hb : (a == k) = false := by simp [beq_iff_eq, h]
    simp [dget, List.find?, hb, h]

theorem dcontains_cons {α : Type} (a : String) (b : α) (t : PyDict α) (k : String) :
    dcontains ((a, b) :: t) k = if a = k then true else dcontains t k := by
  unfold dcontains
  rw [dget_cons]
  by_cases h : a = k <;> simp [h]

theorem dget_map_overwrite {α : Type} (d : PyDict α) (k k' : String) (v : α) :
    dget (d.map (fun p => if p.1 == k then (k, v) else p)) k' =
      if k' = k then (if dcontains d k then some v else none) else dget d k' := by
  induction d with
  | nil =>
    by_cases h : k' = k <;> simp [dget, dcontains, h]
  | cons p t ih =>
    obtain ⟨a, b⟩ := p
    by_cases hak : a = k
    · have hb : (a == k) = true := by simp [beq_iff_eq, hak]
      simp only [List.map_cons, hb, if_true]
      rw [dget_cons, dget_cons, dcontains_cons]
      by_cases hk' : k' = k
      · simp [hak, hk']
      · have hak' : a ≠ k' := fun hh => hk' (hak ▸ hh.symm ▸ rfl)
        have hkk' : k ≠ k' := fun hh => hk' hh.symm
        simp only [hkk', if_false, hak, if_true, hk']
        rw [ih]
        simp [hk', hak']
    · have hb : (a == k) = false := by simp [beq_iff_eq, hak]
      simp only [List.map_cons, hb, Bool.false_eq_true, if_false]
      rw [dget_cons, dget_cons, dcontains_cons]
      simp only [hak, if_false]
      by_cases hak' : a = k'
      · have hk'k : k' ≠ k := fun hh => hak (hak'.trans hh)
        simp [hak', hk'k]
      · simp only [hak', if_false]
        exact ih

theorem dget_append_single {α : Type} (d : PyDict α) (k k' : String) (v : α) :
    dget (d ++ [(k, v)]) k' =
      match dget d k' with
      | some x => some x
      | none => if k' = k then some v else none := by
  induction d with
  | nil =>
    rw [List.nil_append, dget_nil, dget_cons, dget_nil]
    by_cases h : k = k'
    · simp [h]
    · have h' : k' ≠ k := fun hh => h hh.symm
      simp [h, h']
  | cons p t ih =>
    obtain ⟨a, b⟩ := p
    rw [List.cons_append, dget_cons, dget_cons]
    by_cases hp : a = k'
    · simp [hp]
    · simp only [hp, if_false]
      exact ih

/-- The central dictionary law: assignment followed by lookup. -/
theorem dget_dset {α : Type} (d : PyDict α) (k k' : String) (v : α) :
    dget (dset d k v) k' = if k' = k then some v else dget d k' := by
  unfold dset
  by_cases hc : dcontains d k
  · simp only [hc, if_true]
    rw [dget_map_overwrite]
    simp [hc]
  · simp only [hc, Bool.false_eq_true, if_false]
    rw [dget_append_single]
    have hnone : dget d k = none := by
      unfold dcontains at hc
      cases h : dget d k
      · rfl
      · rw [h] at hc; simp at hc
    by_cases hk : k' = k
    · subst hk; rw [hnone]
    · cases h : dget d k' <;> simp [hk]

theorem dcontains_iff {α : Type} (d : PyDict α) (k : String) :
    dcontains d k = true ↔ ∃ v, dget d k = some v := by
  unfold dcontains
  cases h : dget d k <;> simp

/-- Lookups ignore filtered-out entries whose keys differ from the lookup
key. -/
theorem dget_filter {α : Type} (d : PyDict α) (pred : String × α → Bool) (k : String)
    (h : ∀ p : String × α, p.1 = k → pred p = true) :
    dget (d.filter pred) k = dget d k := by
  induction d with
  | nil => rfl
  | cons p t ih =>
    obtain ⟨a, b⟩ := p
    cases hkeep : pred (a, b)
    · have hak : a ≠ k := by
        intro hh
        rw [h (a, b) hh] at hkeep
        exact absurd hkeep (by simp)
      rw [List.filter_cons_of_neg (by simp [hkeep]), dget_cons]
      simp only [hak, if_false]
      exact ih
    · rw [List.filter_cons_of_pos (by simp [hkeep]), dget_cons, dget_cons]
      by_cases hak : a = k
      · simp [hak]
      · simp only [hak, if_false]
        exact ih

/-! ## Key shape lemmas -/

theorem keyUid_inj {a b : String} (h : keyUid a = keyUid b) : a = b := by
  have h2 : 'u' :: 'i' :: 'd' :: ':' :: a.data = 'u' :: 'i' :: 'd' :: ':' :: b.data :=
    congrArg String.data h
  simp only [List.cons.injEq, true_and] at h2
  exact String.ext h2

theorem keyUid_ne_keyNameSet (a n s : String) : keyUid a ≠ keyNameSet n s := by
  intro h
  have h2 : (some 'u' : Option Char) = some 'n' := congrArg (fun t => t.data.head?) h
  simp at h2

theorem keyUid_ne_keyNumSet (a : String) (n : Int) (s : String) :
    keyUid a ≠ keyNumSet n s := by
  intro h
  have h2 : (some 'u' : Option Char) = some 'n' := congrArg (fun t => t.data.head?) h
  simp at h2

theorem uidKey_starts (u : String) :
    listStartsWith "uid:".data (keyUid u).data = true := rfl

theorem nameKey_not_uid (n s : String) :
    listStartsWith "uid:".data (keyNameSet n s).data = false := rfl

theorem numKey_not_uid (n : Int) (s : String) :
    listStartsWith "uid:".data (keyNumSet n s).data = false := rfl

/-! ## Comparator lemmas -/

theorem listLeChars_total : ∀ a b : List Char,
    listLeChars a b = true ∨ listLeChars b a = true
  | [], _ => Or.inl rfl
  | _ :: _, [] => Or.inr rfl
  | a :: as, b :: bs => by
    rcases Nat.lt_trichotomy a.toNat b.toNat with h | h | h
    · left
      simp [listLeChars, h]
    · rcases listLeChars_total as bs with ih | ih
      · left
        simp [listLeChars, h, ih]
      · right
        simp [listLeChars, h.symm, ih]
    · right
      simp [listLeChars, h]

theorem listLeChars_trans : ∀ a b c : List Char,
    listLeChars a b = true → listLeChars b c = true → listLeChars a c = true
  | [], _, _ => by intro _ _; rfl
  | _ :: _, [], _ => by intro h _; simp [listLeChars] at h
  | _ :: _, _ :: _, [] => by intro _ h; simp [listLeChars] at h
  | a :: as, b :: bs, c :: cs => by
    intro hab hbc
    simp only [listLeChars, Bool.or_eq_true, Bool.and_eq_true, decide_eq_true_eq] at *
    rcases hab with hab | ⟨hab, hab'⟩
    · rcases hbc with hbc | ⟨hbc, _⟩
      · exact Or.inl (hab.trans hbc)
      · exact Or.inl (hbc ▸ hab)
    · rcases hbc with hbc | ⟨hbc, hbc'⟩
      · exact Or.inl (hab ▸ hbc)
      · exact Or.inr ⟨hab.trans hbc, listLeChars_trans as bs cs hab' hbc'⟩

theorem sortKeyLe_total (a b : Card) : sortKeyLe a b = true ∨ sortKeyLe b a = true := by
  unfold sortKeyLe
  rcases Int.lt_trichotomy (a.cardNumber.getD 0) (b.cardNumber.getD 0) with h | h | h
  · left
    simp [h]
  · rcases listLeChars_total a.variant.data b.variant.data with hv | hv
    · left
      simp [h, hv]
    · right
      simp [h.symm, hv]
  · right
    simp [h]

theorem sortKeyLe_trans (a b c : Card) (hab : sortKeyLe a b = true)
    (hbc : sortKeyLe b c = true) : sortKeyLe a c = true := by
  unfold sortKeyLe at *
  simp only [Bool.or_eq_true, Bool.and_eq_true, decide_eq_true_eq] at *
  rcases hab with hab | ⟨hab, hab'⟩
  · rcases hbc with hbc | ⟨hbc, _⟩
    · exact Or.inl (hab.trans hbc)
    · exact Or.inl (hbc ▸ hab)
  · rcases hbc with hbc | ⟨hbc, hbc'⟩
    · exact Or.inl (hab ▸ hbc)
    · exact Or.inr ⟨hab.trans hbc, listLeChars_trans _ _ _ hab' hbc'⟩

/-! ## Stable sort lemmas -/

theorem perm_insertS {α : Type} (le : α → α → Bool) (a : α) :
    ∀ l : List α, List.Perm (insertS le a l) (a :: l)
  | [] => List.Perm.refl _
  | b :: bs => by
    unfold insertS
    by_cases h : (le b a && !le a b) = true
    · simp only [h, if_true]
      exact ((perm_insertS le a bs).cons b).trans (List.Perm.swap a b bs)
    · simp [h]

theorem stableSort_perm {α : Type} (le : α → α → Bool) :
    ∀ l : List α, List.Perm (stableSort le l) l
  | [] => List.Perm.nil
  | x :: xs =>
    (perm_insertS le x (stableSort le xs)).trans ((stableSort_perm le xs).cons x)

theorem mem_insertS {α : Type} (le : α → α → Bool) (a x : α) (l : List α)
    (h : x ∈ insertS le a l) : x = a ∨ x ∈ l :=
  List.mem_cons.mp ((perm_insertS le a l).mem_iff.mp h)

theorem pairwise_insertS {α : Type} (le : α → α → Bool)
    (htot : ∀ x y, le x y = true ∨ le y x = true)
    (htrans : ∀ x y z, le x y = true → le y z = true → le x z = true) (a : α) :
    ∀ l : List α, List.Pairwise (fun x y => le x y = true) l →
      List.Pairwise (fun x y => le x y = true) (insertS le a l)
  | [], _ => List.Pairwise.cons (by intro y hy; cases hy) List.Pairwise.nil
  | b :: bs, hp => by
    unfold insertS
    by_cases h : (le b a && !le a b) = true
    · simp only [h, if_true]
      have hba : le b a = true := ((Bool.and_eq_true _ _).mp h).1
      refine List.Pairwise.cons ?_ (pairwise_insertS le htot htrans a bs hp.tail)
      intro y hy
      rcases mem_insertS le a y bs hy with rfl | hmem
      · exact hba
      · exact List.rel_of_pairwise_cons hp hmem
    · simp only [h, if_false]
      have hab : le a b = true := by
        rcases Bool.and_eq_false_iff.mp (Bool.of_not_eq_true h) with hba | hnab
        · rcases htot a b with hh | hh
          · exact hh
          · rw [hh] at hba
            exact absurd hba (by simp)
        · simpa using hnab
      refine List.Pairwise.cons ?_ hp
      intro y hy
      rcases List.mem_cons.mp hy with rfl | hmem
      · exact hab
      · exact htrans a b y hab (List.rel_of_pairwise_cons hp hmem)

theorem stableSort_pairwise {α : Type} (le : α → α → Bool)
    (htot : ∀ x y, le x y = true ∨ le y x = true)
    (htrans : ∀ x y z, le x y = true → le y z = true → le x z = true) :
    ∀ l : List α, List.Pairwise (fun x y => le x y = true) (stableSort le l)
  | [] => List.Pairwise.nil
  | x :: xs =>
    pairwise_insertS le htot htrans x (stableSort le xs)
      (stableSort_pairwise le htot htrans xs)

/-! ## Deduplication lemmas -/

theorem dedupAux_cons_not_seen (seen : List String) (c : Card) (rest : List Card)
    (hs : seen.contains c.id = false) :
    dedupAux seen (c :: rest) = c :: dedupAux (c.id :: seen) rest := by
  have h' : c.id ∉ seen := by simpa using hs
  simp [dedupAux, h']

theorem dedupAux_cons_seen (seen : List String) (c : Card) (rest : List Card)
    (hs : seen.contains c.id = true) :
    dedupAux seen (c :: rest) = dedupAux seen rest := by
  have h' : c.id ∈ seen := by simpa using hs
  simp [dedupAux, h']

theorem dedupAux_eq_spec : ∀ (l : List Card) (seen : List String),
    dedupAux seen l = dedupFirstSpec (l.filter (fun c => !seen.contains c.id))
  | [], _ => by simp [dedupAux, dedupFirstSpec]
  | c :: rest, seen => by
    cases hs : seen.contains c.id
    · rw [List.filter_cons_of_pos (by simpa using hs), dedupAux_cons_not_seen seen c rest hs,
        dedupFirstSpec]
      congr 1
      rw [dedupAux_eq_spec rest (c.id :: seen), List.filter_filter]
      congr 1
      refine List.filter_congr ?_
      intro d _
      show (!(c.id :: seen).contains d.id) = ((d.id != c.id) && !seen.contains d.id)
      rw [List.contains_cons]
      simp only [bne]
      cases h1 : d.id == c.id <;> cases h2 : seen.contains d.id <;> rfl
    · rw [List.filter_cons_of_neg (by simpa using hs), dedupAux_cons_seen seen c rest hs]
      exact dedupAux_eq_spec rest seen

theorem dedupAux_ids_nodup : ∀ (l : List Card) (seen : List String),
    ((dedupAux seen l).map (fun c => c.id)).Nodup ∧
      ∀ x ∈ (dedupAux seen l).map (fun c => c.id), seen.contains x = false
  | [], _ => ⟨List.Pairwise.nil, by intro x hx; cases hx⟩
  | c :: rest, seen => by
    cases hs : seen.contains c.id
    · rw [dedupAux_cons_not_seen seen c rest hs]
      obtain ⟨ih1, ih2⟩ := dedupAux_ids_nodup rest (c.id :: seen)
      constructor
      · rw [List.map_cons, List.nodup_cons]
        refine ⟨fun hmem => ?_, ih1⟩
        have h2 := ih2 c.id hmem
        rw [List.contains_cons] at h2
        simp at h2
      · intro x hx
        rw [List.map_cons] at hx
        rcases List.mem_cons.mp hx with rfl | hmem
        · exact hs
        · have h2 := ih2 x hmem
          rw [List.contains_cons] at h2
          exact (Bool.or_eq_false_iff.mp h2).2
    · rw [dedupAux_cons_seen seen c rest hs]
      exact dedupAux_ids_nodup rest seen

/-! ## Old-snapshot index lemmas -/

theorem loadCardStep_preserves_uid (d : PyDict Card) (c' : Card) (u : String)
    (hu : c'.uniqueId.getD "" ≠ u) :
    dget (loadCardStep d c') (keyUid u) = dget d (keyUid u) := by
  unfold loadCardStep
  by_cases hname : c'.name = ""
  · simp [hname]
  · simp only [hname, if_false]
    have huid : ∀ (e : PyDict Card),
        dget (if c'.uniqueId.getD "" ≠ "" then dset e (keyUid (c'.uniqueId.getD "")) c' else e)
          (keyUid u) = dget e (keyUid u) := by
      intro e
      by_cases h1 : c'.uniqueId.getD "" ≠ ""
      · rw [if_pos h1, dget_dset, if_neg (fun hh => hu (keyUid_inj hh).symm)]
      · rw [if_neg h1]
    have hname' : ∀ (e : PyDict Card),
        dget (if c'.name ≠ "" ∧ c'.setName ≠ "" then
            dset e (keyNameSet c'.name c'.setName) c' else e) (keyUid u) =
          dget e (keyUid u) := by
      intro e
      by_cases h2 : c'.name ≠ "" ∧ c'.setName ≠ ""
      · rw [if_pos h2, dget_dset, if_neg (keyUid_ne_keyNameSet u c'.name c'.setName)]
      · rw [if_neg h2]
    set cn : Option Int := if pyTruthyInt c'.cardNumber then c'.cardNumber else none with hcn
    by_cases h3 : pyTruthyInt cn ∧ c'.setName ≠ ""
    · rw [if_pos h3, dget_dset, if_neg (keyUid_ne_keyNumSet u (cn.getD 0) c'.setName),
        hname', huid]
    · rw [if_neg h3, hname', huid]

theorem loadCardStep_sets_self (d : PyDict Card) (c : Card) (u : String)
    (hname : c.name ≠ "") (hu : c.uniqueId = some u) (hne : u ≠ "") :
    dget (loadCardStep d c) (keyUid u) = some c := by
  unfold loadCardStep
  have hgd : c.uniqueId.getD "" = u := by rw [hu]; rfl
  simp only [hname, if_false, if_neg (fun h : c.name = "" => hname h)]
  rw [hgd, if_pos hne]
  have h1 : dget (dset d (keyUid u) c) (keyUid u) = some c := by
    rw [dget_dset, if_pos rfl]
  have h2 : ∀ (e : PyDict Card), dget e (keyUid u) = some c →
      dget (if c.name ≠ "" ∧ c.setName ≠ "" then
          dset e (keyNameSet c.name c.setName) c else e) (keyUid u) = some c := by
    intro e he
    by_cases hcase : c.name ≠ "" ∧ c.setName ≠ ""
    · rw [if_pos hcase, dget_dset, if_neg (keyUid_ne_keyNameSet u c.name c.setName)]
      exact he
    · rw [if_neg hcase]; exact he
  set cn : Option Int := if pyTruthyInt c.cardNumber then c.cardNumber else none with hcn
  by_cases h3 : pyTruthyInt cn ∧ c.setName ≠ ""
  · rw [if_pos h3, dget_dset, if_neg (keyUid_ne_keyNumSet u (cn.getD 0) c.setName)]
    exact h2 _ h1
  · rw [if_neg h3]
    exact h2 _ h1

theorem load_foldl_preserves_uid : ∀ (l : List Card) (d : PyDict Card) (u : String),
    (∀ c' ∈ l, c'.uniqueId.getD "" ≠ u) →
    dget (l.foldl loadCardStep d) (keyUid u) = dget d (keyUid u)
  | [], _, _, _ => rfl
  | x :: t, d, u, h => by
    rw [List.foldl_cons, load_foldl_preserves_uid t _ u (fun c' hc' => h c' (by simp [hc'])),
      loadCardStep_preserves_uid d x u (h x (by simp))]

/-- In the index built from a card list with pairwise distinct uniqueIds,
looking a card's uid key up returns that card. -/
theorem load_lookup_self : ∀ (cards : List Card) (d : PyDict Card) (c : Card) (u : String),
    c ∈ cards → c.name ≠ "" → c.uniqueId = some u → u ≠ "" →
    (cards.map (fun x => x.uniqueId.getD "")).Nodup →
    dget (cards.foldl loadCardStep d) (keyUid u) = some c
  | [], _, _, _, hmem, _, _, _, _ => absurd hmem (List.not_mem_nil _)
  | x :: t, d, c, u, hmem, hname, hu, hne, hnd => by
    rw [List.map_cons] at hnd
    obtain ⟨hnotin, hndt⟩ := List.nodup_cons.mp hnd
    rcases List.mem_cons.mp hmem with rfl | hmemt
    · rw [List.foldl_cons]
      have hut : ∀ c' ∈ t, c'.uniqueId.getD "" ≠ u := by
        intro c' hc' heq
        have hx : c.uniqueId.getD "" = u := by rw [hu]; rfl
        rw [hx] at hnotin
        exact hnotin (heq ▸ List.mem_map_of_mem (fun y => y.uniqueId.getD "") hc')
      rw [load_foldl_preserves_uid t _ u hut, loadCardStep_sets_self d c u hname hu hne]
    · rw [List.foldl_cons]
      exact load_lookup_self t _ c u hmemt hname hu hne hndt

/-! ## Reconciler lemmas -/

theorem migrationStep_self (old : PyDict Card) (m : PyDict MigrationEntry) (c : Card)
    (u : String) (hu : c.uniqueId = some u) (hne : u ≠ "")
    (hget : dget old (keyUid u) = some c) (hid : c.id ≠ "") :
    migrationStep old m c = dset m c.id (selfEntry c) := by
  have hgd : c.uniqueId.getD "" = u := by rw [hu]; rfl
  have htr : pyTruthyOpt c.uniqueId = true := by
    rw [hu]; simpa [pyTruthyOpt] using hne
  have hs1 : strategy1 old c = some c := by
    unfold strategy1
    rw [if_pos htr, hgd, hget]
  have hfind : findOldCard old c = some c := by
    unfold findOldCard
    rw [hs1]
  have hmeth : matchMethodOf old c = "uniqueId" := by
    unfold matchMethodOf
    rw [if_pos]
    refine ⟨htr, ?_⟩
    rw [hgd]
    unfold dcontains
    rw [hget]
    rfl
  unfold migrationStep
  rw [hfind]
  simp only [hid, if_true, if_pos (fun h : c.id = "" => hid h)]
  rw [hmeth]
  rfl

theorem migration_foldl_preserves : ∀ (l : List Card) (old : PyDict Card)
    (m : PyDict MigrationEntry) (k : String),
    (∀ c' ∈ l, ∀ o, findOldCard old c' = some o → o.id ≠ k) →
    dget (l.foldl (migrationStep old) m) k = dget m k
  | [], _, _, _, _ => rfl
  | x :: t, old, m, k, h => by
    rw [List.foldl_cons,
      migration_foldl_preserves t old _ k (fun c' hc' => h c' (by simp [hc']))]
    unfold migrationStep
    cases hf : findOldCard old x with
    | none => rfl
    | some o =>
      by_cases ho : o.id = ""
      · simp [ho]
      · simp only [ho, if_false, if_pos (fun h : o.id = "" => ho h)]
        rw [dget_dset, if_neg (fun hh => (h x (by simp) o hf) hh.symm)]

/-- When every card of the list matches itself with a non-empty id and ids
are pairwise distinct, the final migration map sends each card's id to its
self entry. -/
theorem migration_all_self : ∀ (l : List Card) (old : PyDict Card)
    (m : PyDict MigrationEntry) (c : Card),
    c ∈ l →
    (∀ c' ∈ l, ∃ u, c'.uniqueId = some u ∧ u ≠ "" ∧ dget old (keyUid u) = some c' ∧
      c'.id ≠ "") →
    (l.map (fun x => x.id)).Nodup →
    dget (l.foldl (migrationStep old) m) c.id = some (selfEntry c)
  | [], _, _, _, hmem, _, _ => absurd hmem (List.not_mem_nil _)
  | x :: t, old, m, c, hmem, hall, hnd => by
    rw [List.map_cons] at hnd
    obtain ⟨hnotin, hndt⟩ := List.nodup_cons.mp hnd
    rcases List.mem_cons.mp hmem with rfl | hmemt
    · obtain ⟨u, hu, hne, hget, hid⟩ := hall c (by simp)
      rw [List.foldl_cons, migrationStep_self old m c u hu hne hget hid]
      have hidt : ∀ c' ∈ t, ∀ o, findOldCard old c' = some o → o.id ≠ c.id := by
        intro c' hc' o hf
        obtain ⟨u', hu', hne', hget', hid'⟩ := hall c' (by simp [hc'])
        have hself : findOldCard old c' = some c' := by
          unfold findOldCard strategy1
          have htr : pyTruthyOpt c'.uniqueId = true := by
            rw [hu']; simpa [pyTruthyOpt] using hne'
          have hgd : c'.uniqueId.getD "" = u' := by rw [hu']; rfl
          rw [if_pos htr, hgd, hget']
        rw [hself] at hf
        cases hf
        intro heq
        exact hnotin (heq ▸ List.mem_map_of_mem (fun y => y.id) hc')
      rw [migration_foldl_preserves t old _ c.id hidt, dget_dset, if_pos rfl]
    · rw [List.foldl_cons]
      exact migration_all_self t old _ c hmemt (fun c' hc' => hall c' (by simp [hc'])) hndt

/-- Every entry the reconciler ever emits carries one of the two recorded
match methods. -/
theorem migration_method_values : ∀ (l : List Card) (old : PyDict Card)
    (m : PyDict MigrationEntry),
    (∀ k e, dget m k = some e → e.match_method = "uniqueId" ∨ e.match_method = "name+set") →
    ∀ k e, dget (l.foldl (migrationStep old) m) k = some e →
      e.match_method = "uniqueId" ∨ e.match_method = "name+set"
  | [], _, _, hm, k, e => fun h => hm k e h
  | x :: t, old, m, hm, k, e => by
    rw [List.foldl_cons]
    refine migration_method_values t old _ ?_ k e
    intro k' e' h'
    unfold migrationStep at h'
    cases hf : findOldCard old x with
    | none =>
      rw [hf] at h'
      exact hm k' e' h'
    | some o =>
      rw [hf] at h'
      by_cases ho : o.id = ""
      · simp only [ho, ne_eq, not_true_eq_false, if_false] at h'
        exact hm k' e' h'
      · simp only [ho, ne_eq, not_false_eq_true, if_true] at h'
        rw [dget_dset] at h'
        by_cases hk : k' = o.id
        · rw [if_pos hk] at h'
          cases h'
          unfold matchMethodOf
          by_cases hcase : pyTruthyOpt x.uniqueId = true ∧
              dcontains old (keyUid (x.uniqueId.getD "")) = true
          · rw [if_pos hcase]
            exact Or.inl rfl
          · rw [if_neg hcase]
            exact Or.inr rfl
        · rw [if_neg hk] at h'
          exact hm k' e' h'

/-! ## Grouping lemmas -/

theorem dget_addToGroups (gs : PyDict (List Card)) (s s' : String) (c : Card) :
    dget (addToGroups gs s c) s' =
      if s' = s then some ((dget gs s).getD [] ++ [c]) else dget gs s' := by
  unfold addToGroups
  cases hg : dget gs s with
  | none =>
    rw [dget_dset]
    simp
  | some l =>
    rw [dget_dset]
    simp

theorem groupCards_foldl_char : ∀ (raws : List RawCard)
    (acc : PyDict (List Card) × List Card),
    ((raws.foldl groupStep acc).2 = acc.2 ++
        (raws.map convert_card_to_app_format).filter (fun c => c.setName == "")) ∧
      ∀ s : String, s ≠ "" →
        (dget (raws.foldl groupStep acc).1 s).getD [] =
          (dget acc.1 s).getD [] ++
            (raws.map convert_card_to_app_format).filter (fun c => c.setName == s)
  | [], acc => ⟨by simp, fun s _ => by simp⟩
  | r :: t, acc => by
    rw [List.foldl_cons]
    by_cases hs : (convert_card_to_app_format r).setName = ""
    · have hstep1 : (groupStep acc r).1 = acc.1 := by
        unfold groupStep
        rw [if_pos hs]
      have hstep2 : (groupStep acc r).2 = acc.2 ++ [convert_card_to_app_format r] := by
        unfold groupStep
        rw [if_pos hs]
      obtain ⟨ih1, ih2⟩ := groupCards_foldl_char t (groupStep acc r)
      constructor
      · rw [ih1, hstep2, List.map_cons, List.filter_cons_of_pos (by simp [hs]),
          List.append_assoc]
        rfl
      · intro s hne
        rw [ih2 s hne, hstep1, List.map_cons,
          List.filter_cons_of_neg (by simp [hs]; exact fun hh => hne hh.symm)]
    · have hstep1 : (groupStep acc r).1 =
          addToGroups acc.1 (convert_card_to_app_format r).setName
            (convert_card_to_app_format r) := by
        unfold groupStep
        rw [if_neg hs]
      have hstep2 : (groupStep acc r).2 = acc.2 := by
        unfold groupStep
        rw [if_neg hs]
      obtain ⟨ih1, ih2⟩ := groupCards_foldl_char t (groupStep acc r)
      constructor
      · rw [ih1, hstep2, List.map_cons, List.filter_cons_of_neg (by simp [hs])]
      · intro s hne
        rw [ih2 s hne, hstep1]
        by_cases hcase : s = (convert_card_to_app_format r).setName
        · rw [List.map_cons, List.filter_cons_of_pos (by simp [hcase]),
            dget_addToGroups, if_pos hcase, hcase]
          simp [List.append_assoc]
        · rw [List.map_cons, List.filter_cons_of_neg (by simp; exact fun hh => hcase hh.symm),
            dget_addToGroups, if_neg hcase]

/-! ## Summary counting lemmas -/

theorem keys_dset_contains {α : Type} (d : PyDict α) (k : String) (v : α)
    (hc : dcontains d k = true) : (dset d k v).map Prod.fst = d.map Prod.fst := by
  unfold dset
  rw [if_pos hc, List.map_map]
  refine List.map_congr_left ?_
  intro p _
  by_cases h : p.1 = k
  · simp [Function.comp, h]
  · simp [Function.comp, h]

theorem keys_nodup_dset {α : Type} (d : PyDict α) (k : String) (v : α)
    (h : (d.map Prod.fst).Nodup) : ((dset d k v).map Prod.fst).Nodup := by
  cases hc : dcontains d k
  · unfold dset
    rw [if_neg (by simp [hc]), List.map_append]
    rw [List.nodup_append]
    refine ⟨h, List.nodup_singleton k, ?_⟩
    intro a ha hak
    rw [show (List.map Prod.fst [(k, v)]) = [k] from rfl, List.mem_singleton] at hak
    rw [hak] at ha
    unfold dcontains dget at hc
    obtain ⟨p, hp, hpk⟩ := List.mem_map.mp ha
    cases hf : List.find? (fun q => q.1 == k) d with
    | none =>
      have hnone := List.find?_eq_none.mp hf p hp
      exact absurd (by simp [hpk] : (p.1 == k) = true) hnone
    | some q =>
      rw [hf] at hc
      simp at hc
  · exact (keys_dset_contains d k v hc) ▸ h

theorem sumLens_overwrite : ∀ (gs : PyDict (List Card)) (s : String) (l : List Card)
    (c : Card), (gs.map Prod.fst).Nodup → dget gs s = some l →
    sumLens (gs.map (fun p => if p.1 == s then (s, l ++ [c]) else p)) = sumLens gs + 1
  | [], _, _, _, _, hg => by simp [dget] at hg
  | (a, b) :: t, s, l, c, hnd, hg => by
    rw [List.map_cons] at hnd
    obtain ⟨hnotin, hndt⟩ := List.nodup_cons.mp hnd
    rw [dget_cons] at hg
    by_cases h : a = s
    · have hb : b = l := by
        rw [if_pos h] at hg
        exact Option.some.inj hg
      have hmapt : t.map (fun p => if p.1 == s then (s, l ++ [c]) else p) = t.map id := by
        refine List.map_congr_left ?_
        intro p hp
        have hps : p.1 ≠ s := by
          intro hh
          apply hnotin
          rw [h, ← hh]
          exact List.mem_map.mpr ⟨p, hp, rfl⟩
        simp [hps]
      rw [List.map_cons, hmapt, List.map_id]
      unfold sumLens
      simp only [List.map_cons, List.sum_cons, if_pos (by simp [h] : (a == s) = true)]
      rw [hb]
      simp only [List.length_append, List.length_cons, List.length_nil]
      omega
    · rw [if_neg h] at hg
      have ih := sumLens_overwrite t s l c hndt hg
      rw [List.map_cons]
      unfold sumLens
      simp only [List.map_cons, List.sum_cons, if_neg (by simp [h] : ¬(a == s) = true)]
      unfold sumLens at ih
      omega

theorem sumLens_addToGroups (gs : PyDict (List Card)) (s : String) (c : Card)
    (hnd : (gs.map Prod.fst).Nodup) : sumLens (addToGroups gs s c) = sumLens gs + 1 := by
  cases hg : dget gs s with
  | none =>
    have hc : dcontains gs s = false := by
      unfold dcontains
      rw [hg]
      rfl
    have haddg : addToGroups gs s c = gs ++ [(s, [c])] := by
      unfold addToGroups
      rw [hg]
      show dset gs s [c] = _
      unfold dset
      rw [if_neg (by simp [hc])]
    rw [haddg]
    unfold sumLens
    rw [List.map_append, List.sum_append]
    simp
  | some l =>
    have hc : dcontains gs s = true := by
      unfold dcontains
      rw [hg]
      rfl
    have haddg : addToGroups gs s c =
        gs.map (fun p => if p.1 == s then (s, l ++ [c]) else p) := by
      unfold addToGroups
      rw [hg]
      show dset gs s (l ++ [c]) = _
      unfold dset
      rw [if_pos hc]
    rw [haddg]
    exact sumLens_overwrite gs s l c hnd hg

theorem addToGroups_keys_nodup (gs : PyDict (List Card)) (s : String) (c : Card)
    (h : (gs.map Prod.fst).Nodup) : ((addToGroups gs s c).map Prod.fst).Nodup := by
  unfold addToGroups
  cases dget gs s <;> exact keys_nodup_dset _ _ _ h

theorem groupCards_keys_sum : ∀ (raws : List RawCard)
    (acc : PyDict (List Card) × List Card), (acc.1.map Prod.fst).Nodup →
    ((raws.foldl groupStep acc).1.map Prod.fst).Nodup ∧
      sumLens (raws.foldl groupStep acc).1 =
        sumLens acc.1 + ((raws.map convert_card_to_app_format).filter
          (fun c => c.setName != "")).length
  | [], _, h => ⟨h, by simp⟩
  | r :: t, acc, h => by
    rw [List.foldl_cons]
    by_cases hs : (convert_card_to_app_format r).setName = ""
    · have hstep1 : (groupStep acc r).1 = acc.1 := by
        unfold groupStep
        rw [if_pos hs]
      obtain ⟨ih1, ih2⟩ :=
        groupCards_keys_sum t (groupStep acc r) (by rw [hstep1]; exact h)
      refine ⟨ih1, ?_⟩
      rw [ih2, hstep1, List.map_cons, List.filter_cons_of_neg (by simp [hs])]
    · have hstep1 : (groupStep acc r).1 =
          addToGroups acc.1 (convert_card_to_app_format r).setName
            (convert_card_to_app_format r) := by
        unfold groupStep
        rw [if_neg hs]
      obtain ⟨ih1, ih2⟩ := groupCards_keys_sum t (groupStep acc r)
        (by rw [hstep1]; exact addToGroups_keys_nodup _ _ _ h)
      refine ⟨ih1, ?_⟩
      rw [ih2, hstep1, List.map_cons, List.filter_cons_of_pos (by simp [hs]),
        List.length_cons]
      have hadd := sumLens_addToGroups acc.1 (convert_card_to_app_format r).setName
        (convert_card_to_app_format r) h
      omega

theorem dedupAux_length_le : ∀ (l : List Card) (seen : List String),
    (dedupAux seen l).length ≤ l.length
  | [], _ => Nat.le_refl 0
  | c :: rest, seen => by
    cases hs : seen.contains c.id
    · rw [dedupAux_cons_not_seen _ _ _ hs, List.length_cons, List.length_cons]
      exact Nat.succ_le_succ (dedupAux_length_le rest _)
    · rw [dedupAux_cons_seen _ _ _ hs, List.length_cons]
      exact Nat.le_succ_of_le (dedupAux_length_le rest seen)

theorem sum_dedup_split : ∀ (gs : List (String × List Card)),
    (gs.map (fun p => (dedupCards p.2).length)).sum +
      (gs.map (fun p => p.2.length - (dedupCards p.2).length)).sum =
      (gs.map (fun p => p.2.length)).sum
  | [] => rfl
  | p :: t => by
    simp only [List.map_cons, List.sum_cons]
    have h : (dedupCards p.2).length ≤ p.2.length := dedupAux_length_le p.2 []
    have ih := sum_dedup_split t
    omega

theorem foldl_append_length : ∀ (gs : List (String × List Card)) (acc : List Card),
    (gs.foldl (fun a p => a ++ sortCards (dedupCards p.2)) acc).length =
      acc.length + (gs.map (fun p => (dedupCards p.2).length)).sum
  | [], _ => by simp
  | p :: t, acc => by
    rw [List.foldl_cons, foldl_append_length t _, List.length_append]
    have hlen : (sortCards (dedupCards p.2)).length = (dedupCards p.2).length :=
      (stableSort_perm sortKeyLe (dedupCards p.2)).length_eq
    simp only [List.map_cons, List.sum_cons]
    omega

theorem sum_sortGroups (gs : PyDict (List Card)) (f : String × List Card → Nat) :
    ((sortGroupsByName gs).map f).sum = (gs.map f).sum :=
  ((stableSort_perm _ gs).map f).sum_eq

/-! ## Claim theorems -/

/-- C10: for every raw record, the Normalizer's variant output is one of
Normal, Enchanted, Epic, Iconic or Promo; the Foil and Borderless tags of
the variant table are never produced. -/
theorem c10_variant_range (card : RawCard) :
    (convert_card_to_app_format card).variant ∈
      (["Normal", "Enchanted", "Epic", "Iconic", "Promo"] : List String) := by
  show variantOf card ∈ _
  unfold variantOf variantRawOf
  split
  · decide
  · split
    · decide
    · split
      · decide
      · split
        · decide
        · decide

/-- C8: deduplication is first-occurrence-wins: it agrees with the
specification-side recursion that keeps, for each entity id, exactly the
first card carrying it in input order, and the surviving ids are pairwise
distinct. -/
theorem c8_dedup_first_occurrence (cards : List Card) :
    dedupCards cards = dedupFirstSpec cards ∧
      ((dedupCards cards).map (fun c => c.id)).Nodup := by
  constructor
  · rw [show dedupCards cards = dedupAux [] cards from rfl, dedupAux_eq_spec cards []]
    congr 1
    refine List.filter_eq_self.mpr ?_
    intro a _
    simp
  · exact (dedupAux_ids_nodup cards []).1

/-- C7 counterexample: the Writer's sort places a card with an absent
collector number before a card with collector number five, so an absent
number does not sort as infinite, and the sorted output violates the
spec-side order. -/
theorem c7_absent_number_sorts_first :
    sortCards [cardFive, cardAbsentNum] = [cardAbsentNum, cardFive] ∧
      cardAbsentNum.cardNumber = none ∧ cardFive.cardNumber = some 5 ∧
      ¬ List.Pairwise (fun x y => specSortLe x y = true)
        (sortCards [cardFive, cardAbsentNum]) := by
  refine ⟨by decide, rfl, rfl, by decide⟩

/-- C7 amended: within each per-set catalog the Writer orders cards by the
key pair of collector-number-or-zero (so an absent number sorts as zero,
before the positive numbers) and variant name ascending; the sort output is
a permutation of its input sorted by that key. -/
theorem c7_sort_by_number_then_variant (cards : List Card) :
    List.Perm (sortCards cards) cards ∧
      List.Pairwise (fun a b => sortKeyLe a b = true) (sortCards cards) :=
  ⟨stableSort_perm sortKeyLe cards,
    stableSort_pairwise sortKeyLe sortKeyLe_total sortKeyLe_trans cards⟩

/-- C2 counterexample: two raw records with different assembled names but
identical set, collector number and variant synthesize the same entityId,
because sanitization maps both a space and a hyphen to an underscore. -/
theorem c2_sanitization_collision :
    fullNameOf rawSpace ≠ fullNameOf rawHyphen ∧
      setNameOf rawSpace = setNameOf rawHyphen ∧
      parsedNumOf rawSpace = parsedNumOf rawHyphen ∧
      variantOf rawSpace = variantOf rawHyphen ∧
      (convert_card_to_app_format rawSpace).id =
        (convert_card_to_app_format rawHyphen).id := by
  decide

/-- C2 amended: entityId is a function of the tuple of assembled name, set
name, parsed collector number and variant — identical tuples synthesize
identical ids — but distinct tuples can collide after sanitization, so
injectivity fails. -/
theorem c2_entity_id_deterministic (r1 r2 : RawCard)
    (hname : fullNameOf r1 = fullNameOf r2) (hset : setNameOf r1 = setNameOf r2)
    (hnum : parsedNumOf r1 = parsedNumOf r2) (hvar : variantOf r1 = variantOf r2) :
    (convert_card_to_app_format r1).id = (convert_card_to_app_format r2).id := by
  show cardIdOf r1 = cardIdOf r2
  simp only [cardIdOf, namePartOf, numOrZero]
  rw [hname, hset, hnum, hvar]

/-- C2 witness: two records differing only in flavor text have equal
identity tuples, and the theorem yields equal ids. -/
theorem c2_entity_id_deterministic_witness :
    (convert_card_to_app_format rawElsa1).id = (convert_card_to_app_format rawElsa2).id :=
  c2_entity_id_deterministic rawElsa1 rawElsa2 (by decide) (by decide) (by decide)
    (by decide)

/-- C5 counterexample: a record whose collector number parses to zero and
whose set has a code still gets no uniqueCode, because zero is falsy. -/
theorem c5_zero_number_counterexample :
    parsedNumOf rawZeroNum = some 0 ∧ setCodeOf rawZeroNum = "TFC" ∧
      uniqueIdOf rawZeroNum = none := by
  decide

/-- C5 amended: uniqueCode equals the set code, a dash and the three-digit
zero-padded collector number whenever the parsed number is present and
nonzero and a set code exists; it is absent when the number is absent or
zero or the set code is empty; and a card with a falsy uniqueId never uses
the uid index — removing every uid-prefixed key from the old snapshot does
not change its match. -/
theorem c5_unique_code_presence (card : RawCard) :
    (∀ n : Int, parsedNumOf card = some n → n ≠ 0 → setCodeOf card ≠ "" →
        uniqueIdOf card = some (setCodeOf card ++ "-" ++ fmt03 n)) ∧
      (parsedNumOf card = none ∨ parsedNumOf card = some 0 ∨ setCodeOf card = "" →
        uniqueIdOf card = none) ∧
      ∀ (old : PyDict Card) (c : Card), pyTruthyOpt c.uniqueId = false →
        findOldCard old c =
          findOldCard (old.filter (fun p => !listStartsWith "uid:".data p.1.data)) c := by
  refine ⟨?_, ?_, ?_⟩
  · intro n hn hnz hsc
    unfold uniqueIdOf
    rw [hn]
    have h1 : (pyTruthyInt (some n) && pyTruthy (setCodeOf card)) = true := by
      simp [pyTruthyInt, pyTruthy, bne_iff_ne, hnz, hsc]
    rw [if_pos h1]
    simp
  · intro h
    unfold uniqueIdOf
    rcases h with h | h | h
    · rw [h]
      simp [pyTruthyInt]
    · rw [h]
      simp [pyTruthyInt]
    · simp [h, pyTruthy]
  · intro old c htr
    have hf2 : dget (old.filter (fun p => !listStartsWith "uid:".data p.1.data))
        (keyNameSet c.name c.setName) = dget old (keyNameSet c.name c.setName) := by
      refine dget_filter _ _ _ ?_
      intro p hp
      rw [hp, nameKey_not_uid]
      rfl
    have hf3 : dget (old.filter (fun p => !listStartsWith "uid:".data p.1.data))
        (keyNumSet (c.cardNumber.getD 0) c.setName) =
          dget old (keyNumSet (c.cardNumber.getD 0) c.setName) := by
      refine dget_filter _ _ _ ?_
      intro p hp
      rw [hp, numKey_not_uid]
      rfl
    have hs1 : strategy1 old c = none := by
      unfold strategy1
      rw [htr]
      rfl
    have hs1' : strategy1 (old.filter (fun p => !listStartsWith "uid:".data p.1.data)) c =
        none := by
      unfold strategy1
      rw [htr]
      rfl
    unfold findOldCard
    rw [hs1, hs1']
    show (match strategy2 old c with
      | some o => some o
      | none => strategy3 old c) = _
    cases hs2 : strategy2 old c with
    | some o =>
      have hs2' : strategy2 (old.filter (fun p => !listStartsWith "uid:".data p.1.data)) c =
          some o := by
        unfold strategy2
        rw [hf2]
        exact hs2
      rw [hs2']
    | none =>
      have hs2' : strategy2 (old.filter (fun p => !listStartsWith "uid:".data p.1.data)) c =
          none := by
        unfold strategy2
        rw [hf2]
        exact hs2
      rw [hs2']
      show strategy3 old c = _
      unfold strategy3
      by_cases h3 : pyTruthyInt c.cardNumber = true
      · rw [if_pos h3, if_pos h3, hf3]
      · rw [if_neg h3, if_neg h3]

/-- C5 witness: a record with number seven gets uniqueCode TFC-007; a record
with a non-numeric collector number gets none; and a card with no uniqueId
matches identically with and without the uid index entries. -/
theorem c5_unique_code_presence_witness :
    uniqueIdOf rawElsa1 = some (setCodeOf rawElsa1 ++ "-" ++ fmt03 7) ∧
      uniqueIdOf rawNonNumeric = none ∧
      findOldCard oldIndexC3 cardNoUid =
        findOldCard (oldIndexC3.filter (fun p => !listStartsWith "uid:".data p.1.data))
          cardNoUid :=
  ⟨(c5_unique_code_presence rawElsa1).1 7 (by decide) (by decide) (by decide),
    (c5_unique_code_presence rawNonNumeric).2.1 (Or.inl (by decide)),
    (c5_unique_code_presence rawElsa1).2.2 oldIndexC3 cardNoUid (by decide)⟩

/-- C6 counterexample: a raw record with a set but no usable name is not
rejected — its converted card, whose name is empty, appears in the per-set
catalog. -/
theorem c6_missing_name_not_rejected :
    (convert_card_to_app_format rawNoName).name = "" ∧
      convert_card_to_app_format rawNoName ∈
        catalogCards [rawNoName] "Rise of the Floodborn" := by
  decide

/-- C6 amended: a raw record whose converted set name is empty is skipped
(and surfaced in the skip list) and lands in no group; every record whose
converted set name is non-empty contributes exactly one canonical card, to
its own set's group; records lacking only a name are not rejected. -/
theorem c6_missing_set_skipped (raws : List RawCard) :
    (groupCards raws).2 =
        (raws.map convert_card_to_app_format).filter (fun c => c.setName == "") ∧
      ∀ s : String, s ≠ "" →
        (dget (groupCards raws).1 s).getD [] =
          (raws.map convert_card_to_app_format).filter (fun c => c.setName == s) := by
  have h := groupCards_foldl_char raws ([], [])
  unfold groupCards
  exact ⟨by simpa using h.1, fun s hs => by simpa using h.2 s hs⟩

/-- C6 witness: with one record for The First Chapter and one with no set,
the skip list holds exactly the setless conversion and the group for The
First Chapter holds exactly the other. -/
theorem c6_missing_set_skipped_witness :
    (groupCards [rawElsa1, rawNoSet]).2 =
        ([rawElsa1, rawNoSet].map convert_card_to_app_format).filter
          (fun c => c.setName == "") ∧
      (dget (groupCards [rawElsa1, rawNoSet]).1 "The First Chapter").getD [] =
        ([rawElsa1, rawNoSet].map convert_card_to_app_format).filter
          (fun c => c.setName == "The First Chapter") :=
  ⟨(c6_missing_set_skipped [rawElsa1, rawNoSet]).1,
    (c6_missing_set_skipped [rawElsa1, rawNoSet]).2 "The First Chapter" (by decide)⟩

/-- C3: when a new card's uniqueId hits one old record while its name and
set key hits a different old record, the emitted entry carries the uid
match's old id and the uniqueId method — strategy one wins. -/
theorem c3_unique_code_precedence (old : PyDict Card) (m : PyDict MigrationEntry)
    (c : Card) (u : String) (o1 o2 : Card)
    (hu : c.uniqueId = some u) (hne : u ≠ "")
    (h1 : dget old (keyUid u) = some o1) (hid : o1.id ≠ "")
    (_h2 : dget old (keyNameSet c.name c.setName) = some o2) (_hdiff : o2.id ≠ o1.id) :
    ∃ e : MigrationEntry, dget (migrationStep old m c) o1.id = some e ∧
      e.old_id = o1.id ∧ e.new_id = c.id ∧ e.match_method = "uniqueId" := by
  have htr : pyTruthyOpt c.uniqueId = true := by
    rw [hu]
    simpa [pyTruthyOpt] using hne
  have hgd : c.uniqueId.getD "" = u := by
    rw [hu]
    rfl
  have hs1 : strategy1 old c = some o1 := by
    unfold strategy1
    rw [if_pos htr, hgd, h1]
  have hfind : findOldCard old c = some o1 := by
    unfold findOldCard
    rw [hs1]
  have hcon : dcontains old (keyUid (c.uniqueId.getD "")) = true := by
    rw [hgd]
    unfold dcontains
    rw [h1]
    rfl
  have hmeth : matchMethodOf old c = "uniqueId" := by
    unfold matchMethodOf
    rw [if_pos ⟨htr, hcon⟩]
  have hstep : migrationStep old m c = dset m o1.id
      { old_id := o1.id, new_id := c.id, new_unique_id := c.uniqueId, name := c.name,
        set := c.setName, variant := c.variant, match_method := matchMethodOf old c } := by
    unfold migrationStep
    rw [hfind]
    exact if_pos hid
  rw [hmeth] at hstep
  refine ⟨⟨o1.id, c.id, c.uniqueId, c.name, c.setName, c.variant, "uniqueId"⟩,
    ?_, rfl, rfl, rfl⟩
  rw [hstep, dget_dset, if_pos rfl]

/-- C3 witness: the snapshot of `oldIndexC3` holds `oldCardA` under the uid
key TFC-001 and a different card `oldCardB` under the name and set key; the
entry emitted for `newCardU` carries old1 and the uniqueId method. -/
theorem c3_unique_code_precedence_witness :
    ∃ e : MigrationEntry, dget (migrationStep oldIndexC3 [] newCardU) oldCardA.id = some e ∧
      e.old_id = oldCardA.id ∧ e.new_id = newCardU.id ∧ e.match_method = "uniqueId" :=
  c3_unique_code_precedence oldIndexC3 [] newCardU "TFC-001" oldCardA oldCardB
    (by decide) (by decide) (by decide) (by decide) (by decide) (by decide)

/-- C4 counterexample: a match found by the collector-number and set
strategy is recorded with method name+set, not a number-and-set method —
the recorded method does not name the strategy that matched. -/
theorem c4_number_strategy_mislabeled :
    dget (build_migration_map oldIndexC4 [newCardNum]) "oldN" =
      some { old_id := "oldN", new_id := "new", new_unique_id := some "ZZ-005",
             name := "N", set := "SetA", variant := "",
             match_method := "name+set" } ∧
      dget oldIndexC4 (keyUid "ZZ-005") = none ∧
      dget oldIndexC4 (keyNameSet "N" "SetA") = none ∧
      dget oldIndexC4 (keyNumSet 5 "SetA") = some oldCardNum := by
  decide

/-- C4 amended: every entry the reconciler emits records the method
uniqueId or the method name+set — no other value, and in particular no
dedicated number-and-set label, ever appears. -/
theorem c4_match_method_values (old : PyDict Card) (new_cards : List Card) (k : String)
    (e : MigrationEntry) (h : dget (build_migration_map old new_cards) k = some e) :
    e.match_method = "uniqueId" ∨ e.match_method = "name+set" := by
  unfold build_migration_map at h
  refine migration_method_values new_cards old [] ?_ k e h
  intro k' e' h'
  rw [dget_nil] at h'
  cases h'

/-- C4 witness: the entry emitted for `newCardU` against `oldIndexC3` has
one of the two recorded methods. -/
theorem c4_match_method_values_witness :
    ∃ e : MigrationEntry, dget (build_migration_map oldIndexC3 [newCardU]) "old1" = some e ∧
      (e.match_method = "uniqueId" ∨ e.match_method = "name+set") := by
  have h : dget (build_migration_map oldIndexC3 [newCardU]) "old1" =
      some { old_id := "old1", new_id := "new1", new_unique_id := some "TFC-001",
             name := "Elsa", set := "SetA", variant := "",
             match_method := "uniqueId" } := by
    decide
  exact ⟨_, h, c4_match_method_values oldIndexC3 [newCardU] "old1" _ h⟩

/-- C9 counterexample: three copies of one record cause two drops, yet no
number the run summary reports equals that drop count — the dropped records
are not surfaced in the summary. -/
theorem c9_drop_count_not_surfaced :
    droppedCount [rawDup, rawDup, rawDup] = 2 ∧
      ¬ droppedCount [rawDup, rawDup, rawDup] ∈
        summaryNumbers (runSummary [] [rawDup, rawDup, rawDup]) := by
  decide

/-- C9 amended: the run always completes with a summary whose total card
count excludes exactly the dropped duplicates — the post-dedup total plus
the drop count equals the number of converted records with a set name — but
the drop count itself is not among the reported numbers. -/
theorem c9_totals_exclude_drops (oldCards : List Card) (raws : List RawCard) :
    (runSummary oldCards raws).totalCards + droppedCount raws =
      ((raws.map convert_card_to_app_format).filter (fun c => c.setName != "")).length := by
  show (allNewCards raws).length + droppedCount raws = _
  unfold allNewCards droppedCount
  rw [foldl_append_length]
  rw [sum_sortGroups (groupCards raws).1 (fun p => (dedupCards p.2).length)]
  have hsplit := sum_dedup_split (groupCards raws).1
  have hsum : sumLens (groupCards raws).1 = sumLens ([] : PyDict (List Card)) +
      ((raws.map convert_card_to_app_format).filter (fun c => c.setName != "")).length :=
    (groupCards_keys_sum raws ([], []) (by simp)).2
  unfold sumLens at hsum
  simp only [List.length_nil, List.map_nil, List.sum_nil] at hsum ⊢
  omega

/-- C1 counterexample: round-tripping a catalog whose single card has no
uniqueCode yields a self-entry recorded under the name+set method, not the
uniqueCode method the claim demands. -/
theorem c1_no_unique_code_counterexample :
    dget (build_migration_map (load_existing_cards [cardNoUid]) [cardNoUid])
        "SetA_0_Zed" =
      some { old_id := "SetA_0_Zed", new_id := "SetA_0_Zed", new_unique_id := none,
             name := "Zed", set := "SetA", variant := "Normal",
             match_method := "name+set" } ∧
      ({ old_id := "SetA_0_Zed", new_id := "SetA_0_Zed", new_unique_id := none,
         name := "Zed", set := "SetA", variant := "Normal",
         match_method := "name+set" } : MigrationEntry).match_method ≠ "uniqueId" := by
  decide

/-- C1 amended: loading a card list back as the old snapshot and
reconciling the same list maps every card's entityId to itself under the
uniqueId method, provided every card has a non-empty name, a non-empty
entityId and a non-empty uniqueCode, and entityIds and uniqueCodes are
pairwise distinct; a card lacking a uniqueCode is instead matched through
name+set. -/
theorem c1_roundtrip_self_map (cards : List Card)
    (hall : ∀ c ∈ cards, c.name ≠ "" ∧ c.id ≠ "" ∧ ∃ u, c.uniqueId = some u ∧ u ≠ "")
    (hids : (cards.map (fun c => c.id)).Nodup)
    (huids : (cards.map (fun c => c.uniqueId.getD "")).Nodup) :
    ∀ c ∈ cards, ∃ e : MigrationEntry,
      dget (build_migration_map (load_existing_cards cards) cards) c.id = some e ∧
        e.old_id = c.id ∧ e.new_id = c.id ∧ e.match_method = "uniqueId" := by
  intro c hc
  refine ⟨selfEntry c, ?_, rfl, rfl, rfl⟩
  unfold build_migration_map
  refine migration_all_self cards (load_existing_cards cards) [] c hc ?_ hids
  intro c' hc'
  obtain ⟨hname, hid, u, hu, hne⟩ := hall c' hc'
  refine ⟨u, hu, hne, ?_, hid⟩
  unfold load_existing_cards
  exact load_lookup_self cards [] c' u hc' hname hu hne huids

/-- C1 witness: the one-card catalog of `cardW1` round-trips to a self
entry under the uniqueId method. -/
theorem c1_roundtrip_self_map_witness :
    ∃ e : MigrationEntry,
      dget (build_migration_map (load_existing_cards [cardW1]) [cardW1]) cardW1.id =
          some e ∧
        e.old_id = cardW1.id ∧ e.new_id = cardW1.id ∧ e.match_method = "uniqueId" := by
  refine c1_roundtrip_self_map [cardW1] ?_ (by decide) (by decide) cardW1 (by decide)
  intro c hc
  rw [List.mem_singleton] at hc
  subst hc
  exact ⟨by decide, by decide, "TFC-001", rfl, by decide⟩

end Inkwell
